import Mathlib

/-!
Verification of the auto-node-switch repository's hook-generation core.

This file shallowly embeds the parts of the TypeScript source that the
frozen claims are about:

* `src/source/lib/security.ts` — `Security.validatePath`,
  `Security.validateVersion`, `Security.escapeShellString`;
* `src/source/lib/config.ts` — `PowerShellConfig.escapePowerShellString`
  and the directory-resolution loop of `PowerShellConfig.getTemplates`;
* `src/source/lib/hook-manager.ts` — `HookManager.addHook` (marker-block
  removal and injection), `generateReliableBashHook` (sed-based directory
  resolution, switch/trap control flow), and the manager dispatch;
* `src/source/lib/shell-configs/bash-config.ts` — the supported-manager
  guard of `BashShellConfig.getHookTemplate`;
* `src/source/app.tsx` / `src/source/cli.tsx` — the registry upsert
  performed by `handleVersionSubmit` / `handleAddCommand`.

Strings are modelled as `List Char` (exactly the code points of the
JavaScript strings involved).  All definitions are executable and
kernel-reducible so that concrete runs can be settled by `decide`.
The filesystem-dependent inputs of the source (home directory, current
working directory, detected nvm path, startup-file content) are passed
as explicit parameters.
-/

/- ---------------------------------------------------------------------
Basic character and string utilities
--------------------------------------------------------------------- -/

/-- The single-quote character `'` (code 39). -/
def squote : Char := Char.ofNat 39

/-- The double-quote character (code 34). -/
def dquote : Char := Char.ofNat 34

/-- The backslash character (code 92). -/
def bslash : Char := Char.ofNat 92

/-- The backtick character (code 96). -/
def btick : Char := Char.ofNat 96

/-- The left curly brace (code 123). -/
def lbrace : Char := Char.ofNat 123

/-- The right curly brace (code 125). -/
def rbrace : Char := Char.ofNat 125

/-- Decimal digit test, mirroring the `\d` class of the JavaScript regexes. -/
def isDigitC (c : Char) : Bool := ('0' ≤ c) && (c ≤ '9')

/-- Whitespace test for `String.prototype.trim` (the whitespace characters
that actually occur in the inputs under consideration: space, tab, LF, CR,
vertical tab, form feed). -/
def isWsC (c : Char) : Bool :=
  (c = ' ') || (c = '\t') || (c = '\n') || (c = '\r') ||
  (c = Char.ofNat 11) || (c = Char.ofNat 12)

/-- Model of JavaScript `String.prototype.trim`. -/
def trimChars (s : List Char) : List Char :=
  ((s.dropWhile isWsC).reverse.dropWhile isWsC).reverse

/-- Split a character list at every occurrence of `sep`, mirroring
JavaScript `String.prototype.split(sep)`. -/
def splitOnC (sep : Char) : List Char → List (List Char)
  | [] => [[]]
  | c :: rest =>
    let r := splitOnC sep rest
    if c = sep then [] :: r
    else
      match r with
      | [] => [[c]]
      | g :: gs => (c :: g) :: gs

/-- Index of the first occurrence of `pat` in `s` (leftmost match of the
literal pattern), or `none`.  This is the scanning discipline of a
JavaScript global regex over a literal pattern. -/
def findFirst (pat : List Char) : List Char → Option Nat
  | [] => if pat.isPrefixOf ([] : List Char) then some 0 else none
  | c :: rest =>
    if pat.isPrefixOf (c :: rest) then some 0
    else (findFirst pat rest).map (· + 1)

/-- Substring containment, `String.prototype.includes`. -/
def containsSub (pat s : List Char) : Bool := (findFirst pat s).isSome

/- ---------------------------------------------------------------------
Model of node's `path.posix` normalize / resolve / join
(`path.normalize`, `path.resolve`, `path.join` as used by security.ts,
app.tsx and cli.tsx on a POSIX platform)
--------------------------------------------------------------------- -/

/-- Does the list start with the given character? -/
def headIs (c : Char) (l : List Char) : Bool :=
  match l with
  | [] => false
  | x :: _ => x = c

/-- One step of node's `normalizeString` segment processing: skip empty
and `.` segments; on `..` pop a poppable stack top, and otherwise either
drop it (absolute paths) or keep it (relative paths, `allowAboveRoot`). -/
def normStep (isAbs : Bool) (st : List (List Char)) (seg : List Char) :
    List (List Char) :=
  if seg = [] ∨ seg = ['.'] then st
  else if seg = ['.', '.'] then
    match st with
    | top :: rest => if top = ['.', '.'] then seg :: st else rest
    | [] => if isAbs then [] else [['.', '.']]
  else seg :: st

/-- The resolved segment list of a path (node `normalizeString`). -/
def normCore (isAbs : Bool) (segs : List (List Char)) : List (List Char) :=
  (segs.foldl (normStep isAbs) []).reverse

/-- Model of node `path.posix.normalize`. -/
def posixNormalize (cs : List Char) : List Char :=
  if cs = [] then ['.']
  else
    let isAbs := headIs '/' cs
    let trail := headIs '/' cs.reverse
    let core := normCore isAbs (splitOnC '/' cs)
    if core = [] then
      (if isAbs then ['/'] else if trail then ['.', '/'] else ['.'])
    else
      (if isAbs then ['/'] else []) ++ List.intercalate ['/'] core ++
        (if trail then ['/'] else [])

/-- Model of node `path.posix.resolve(p)` with current working directory
`cwd` (assumed absolute): an absolute, `..`-free, trailing-slash-free
path. -/
def posixResolve (cwd s : List Char) : List Char :=
  '/' :: List.intercalate ['/']
    (normCore true (splitOnC '/' (if headIs '/' s then s else cwd ++ '/' :: s)))

/-- Model of node `path.posix.join(a, b)`. -/
def posixJoin (a b : List Char) : List Char :=
  posixNormalize (a ++ '/' :: b)

/- ---------------------------------------------------------------------
Model of `Security` (src/source/lib/security.ts)
--------------------------------------------------------------------- -/

/-- Error codes carried by the `ValidationError` / `SecurityError`
exceptions of security.ts. -/
inductive VErrCode where
  | emptyPath
  | unsafeCharacters
  | pathTraversal
  | invalidPathFormat
  | emptyVersion
  | unsafeVersionCharacters
  | invalidVersionFormat
  deriving DecidableEq, Repr

/-- The character class `[;|&$(){}[\]\\`"'<>*?]` of security.ts: the
dangerous-character set used both by `validatePath` (non-Windows branch)
and by `validateVersion`. -/
def dangerousChars : List Char :=
  [';', '|', '&', '$', '(', ')', lbrace, rbrace, '[', ']',
   bslash, btick, dquote, squote, '<', '>', '*', '?']

/-- Test of the dangerous-character regex against a string. -/
def hasDangerousChars (s : List Char) : Bool :=
  s.any (fun c => dangerousChars.contains c)

/-- The two-character pattern that `validatePath` searches for in the
normalized path (`normalized.includes('..')`, a substring test). -/
def dotdot : List Char := ['.', '.']

/-- Model of `Security.validatePath` (POSIX platform branch):
empty check, dangerous-character check on the trimmed input, substring
`..` check on `path.normalize` of the trimmed input, tilde expansion,
and final `path.resolve`.  `home` and `cwd` stand for `os.homedir()` and
`process.cwd()`. -/
def validatePath (home cwd p : List Char) : Except VErrCode (List Char) :=
  if p = [] then Except.error VErrCode.emptyPath
  else
    let t := trimChars p
    if hasDangerousChars t then Except.error VErrCode.unsafeCharacters
    else if containsSub dotdot (posixNormalize t) then
      Except.error VErrCode.pathTraversal
    else
      let r := if t.take 2 = ['~', '/'] then posixJoin home (t.drop 2)
               else if t = ['~'] then home
               else t
      Except.ok (posixResolve cwd r)

/-- Lower-case an ASCII letter (the effect of the `i` regex flag on the
inputs involved). -/
def lowerA (c : Char) : Char :=
  if ('A' ≤ c) && (c ≤ 'Z') then Char.ofNat (c.toNat + 32) else c

/-- Word character or hyphen, the `[\w-]` class. -/
def isWordOrDash (c : Char) : Bool :=
  isDigitC c || (('a' ≤ c) && (c ≤ 'z')) || (('A' ≤ c) && (c ≤ 'Z')) ||
    (c = '_') || (c = '-')

/-- A nonempty all-digit group, `\d+`. -/
def digitGroup (g : List Char) : Bool := (!g.isEmpty) && g.all isDigitC

/-- Pattern `^\d+(\.\d+){k-1}$` for `k` dot-separated digit groups. -/
def dotDigitGroups (k : Nat) (t : List Char) : Bool :=
  let gs := splitOnC '.' t
  (gs.length = k) && gs.all digitGroup

/-- Pattern `^v\d+(\.\d+){0,2}$`. -/
def vPattern (t : List Char) : Bool :=
  match t with
  | [] => false
  | c :: rest =>
    (c = 'v') &&
      (let gs := splitOnC '.' rest
       (1 ≤ gs.length) && (gs.length ≤ 3) && gs.all digitGroup)

/-- The alternation of the nine version patterns of
`Security.validateVersion`, applied to the trimmed input. -/
def versionPatternsMatch (t : List Char) : Bool :=
  dotDigitGroups 1 t || dotDigitGroups 2 t || dotDigitGroups 3 t ||
  vPattern t ||
  (t = "lts/*".data) ||
  (let lc := t.map lowerA
   (lc.take 4 = "lts/".data) && (!(lc.drop 4).isEmpty) &&
     (lc.drop 4).all isWordOrDash) ||
  (t.map lowerA = "latest".data) ||
  (t.map lowerA = "stable".data) ||
  (t.map lowerA = "node".data)

/-- Strip a single leading lower-case `v` (`trimmed.replace(/^v/, '')`). -/
def stripLeadingV (t : List Char) : List Char :=
  match t with
  | c :: rest => if c = 'v' then rest else c :: rest
  | [] => []

/-- Model of `Security.validateVersion`: empty check, dangerous-character
check on the trimmed input, then the pattern alternation; on success the
trimmed input with a leading `v` stripped. -/
def validateVersion (v : List Char) : Except VErrCode (List Char) :=
  if v = [] then Except.error VErrCode.emptyVersion
  else
    let t := trimChars v
    if hasDangerousChars t then Except.error VErrCode.unsafeVersionCharacters
    else if versionPatternsMatch t then Except.ok (stripLeadingV t)
    else Except.error VErrCode.invalidVersionFormat

/-- Model of `Security.escapeShellString`: replace every single quote by
the close-quote, escaped-quote, reopen-quote sequence `'\''`. -/
def escapeShellString (s : List Char) : List Char :=
  s.flatMap (fun c => if c = squote then [squote, bslash, squote, squote] else [c])

/-- Stage 1 of `PowerShellConfig.escapePowerShellString`: double every
backslash. -/
def psEsc1 (s : List Char) : List Char :=
  s.flatMap (fun c => if c = bslash then [bslash, bslash] else [c])

/-- Stage 2: double every double quote. -/
def psEsc2 (s : List Char) : List Char :=
  s.flatMap (fun c => if c = dquote then [dquote, dquote] else [c])

/-- Stage 3: replace every newline by backslash-`n`. -/
def psEsc3 (s : List Char) : List Char :=
  s.flatMap (fun c => if c = '\n' then [bslash, 'n'] else [c])

/-- Stage 4: replace every carriage return by backslash-`r`. -/
def psEsc4 (s : List Char) : List Char :=
  s.flatMap (fun c => if c = '\r' then [bslash, 'r'] else [c])

/-- Model of `PowerShellConfig.escapePowerShellString` (identical code
also appears in `HookManager.generatePowerShellHook`): the four chained
`replace` calls, applied in source order. -/
def escapePowerShellString (s : List Char) : List Char :=
  psEsc4 (psEsc3 (psEsc2 (psEsc1 s)))

/- ---------------------------------------------------------------------
Claims C7 and C8 — behaviour of the validators
--------------------------------------------------------------------- -/

deriving instance DecidableEq for Except

/-- Claim C7 (code bug).  The claim says `lts/*` is one of the version
formats `validateVersion` accepts, matching the code's own pattern list
(`/^lts\/\*$/`), its user-facing supported-formats message, and the
repository's unit test (`tests/unit-tests.mjs` lists `lts/*` among the
versions that must pass).  The code, however, runs the dangerous-character
check — whose class contains `*` — before the pattern list, so
`validateVersion("lts/*")` throws `SecurityError` with code
`UNSAFE_VERSION_CHARACTERS` and the `lts/*` pattern is unreachable.
The second conjunct shows that the pattern alternation itself does accept
`lts/*`, so the rejection comes solely from the preceding character
check. -/
theorem C7_lts_star_rejected :
    validateVersion "lts/*".data = Except.error VErrCode.unsafeVersionCharacters ∧
    versionPatternsMatch "lts/*".data = true := by
  decide

/-- Segment-level `..` test, modelled from the claim's words for C8
("the normalized form of the path contains a `..` segment"): the path is
split at `/` and one of the segments is exactly `..`. -/
def hasDotDotSegment (s : List Char) : Bool :=
  (splitOnC '/' s).contains ['.', '.']

/-- Claim C8, counterexample.  `validatePath` tests
`normalized.includes('..')`, a substring test, not a segment test: the
path `/a..b` — whose normalized form has no `..` segment, only a file
name containing two consecutive dots — is nevertheless rejected with
`PATH_TRAVERSAL`, contradicting the claim's "exactly when the normalized
form of the path contains a `..` segment". -/
theorem C8_counterexample :
    validatePath "/home/u".data "/cwd".data "/a..b".data =
      Except.error VErrCode.pathTraversal ∧
    hasDotDotSegment (posixNormalize (trimChars "/a..b".data)) = false := by
  decide

/-- Claim C8, amended: for every non-empty input that passes the
unsafe-character check, `validatePath` fails with `PATH_TRAVERSAL`
exactly when the normalized form of the trimmed path contains `..` as a
substring (not: as a path segment); otherwise it proceeds to tilde
expansion and absolute-path resolution. -/
theorem C8_amended (home cwd p : List Char) (hp : p ≠ [])
    (hd : hasDangerousChars (trimChars p) = false) :
    validatePath home cwd p = Except.error VErrCode.pathTraversal ↔
      containsSub dotdot (posixNormalize (trimChars p)) = true := by
  unfold validatePath
  rw [if_neg hp]
  by_cases hc : containsSub dotdot (posixNormalize (trimChars p)) = true
  · simp [hd, hc]
  · simp [hd, hc]

/-- Witness for `C8_amended` at the concrete traversal input `../x` from
the specification's own example family. -/
theorem C8_amended_witness :
    validatePath "/h".data "/c".data "../x".data =
        Except.error VErrCode.pathTraversal ↔
      containsSub dotdot (posixNormalize (trimChars "../x".data)) = true :=
  C8_amended "/h".data "/c".data "../x".data (by decide) (by decide)

/- ---------------------------------------------------------------------
Claim C2 — escaping round-trips through the target shells' lexers

The generated templates embed the escaped registry JSON as a
single-quoted literal in all three dialects
(`local WORKDIRS='...'`, `set WORKDIRS '...'`, `$WORKDIRS = '...'`).
The decoders below model the three shells' lexing of such a literal.
--------------------------------------------------------------------- -/

/-- POSIX shell word lexer (the fragment relevant to the embedding):
outside single quotes a backslash escapes the next character and a
single quote opens a quoted section; inside single quotes every
character is literal until the closing quote.  The `Bool` is the
in-single-quote state. -/
def posixLexAux : Bool → List Char → Option (List Char)
  | false, [] => some []
  | false, c :: rest =>
    if c = squote then posixLexAux true rest
    else if c = bslash then
      match rest with
      | [] => none
      | d :: rest2 => (posixLexAux false rest2).map (fun l => d :: l)
    else (posixLexAux false rest).map (fun l => c :: l)
  | true, [] => none
  | true, c :: rest =>
    if c = squote then posixLexAux false rest
    else (posixLexAux true rest).map (fun l => c :: l)

/-- Decode a complete POSIX shell word. -/
def posixLexWord (w : List Char) : Option (List Char) := posixLexAux false w

/-- Fish shell word lexer.  Fish differs from POSIX inside single
quotes: a backslash before a quote or another backslash is an escape
sequence (yielding the quote or the backslash), while a backslash
before any other character is a literal backslash. -/
def fishLexAux : Bool → List Char → Option (List Char)
  | false, [] => some []
  | false, c :: rest =>
    if c = squote then fishLexAux true rest
    else if c = bslash then
      match rest with
      | [] => none
      | d :: rest2 => (fishLexAux false rest2).map (fun l => d :: l)
    else (fishLexAux false rest).map (fun l => c :: l)
  | true, [] => none
  | true, c :: rest =>
    if c = squote then fishLexAux false rest
    else if c = bslash then
      match rest with
      | [] => none
      | d :: rest2 =>
        if d = squote then (fishLexAux true rest2).map (fun l => squote :: l)
        else if d = bslash then (fishLexAux true rest2).map (fun l => bslash :: l)
        else (fishLexAux true rest2).map (fun l => bslash :: d :: l)
    else (fishLexAux true rest).map (fun l => c :: l)

/-- Decode a complete Fish shell word. -/
def fishLexWord (w : List Char) : Option (List Char) := fishLexAux false w

/-- PowerShell single-quoted string body lexer: the only escape is a
doubled single quote; everything else (backslashes, doubled double
quotes, backtick sequences) is literal.  Succeeds only if the literal
ends exactly at the end of the input. -/
def psLexIn : List Char → Option (List Char)
  | [] => none
  | c :: rest =>
    if c = squote then
      match rest with
      | [] => some []
      | d :: rest2 =>
        if d = squote then (psLexIn rest2).map (fun l => squote :: l)
        else none
    else (psLexIn rest).map (fun l => c :: l)

/-- Decode a complete PowerShell single-quoted literal. -/
def psLexLiteral (w : List Char) : Option (List Char) :=
  match w with
  | [] => none
  | c :: rest => if c = squote then psLexIn rest else none

/-- Wrap an escaped payload in single quotes, exactly as all the
generated templates do around `escapedDirsJson`. -/
def singleQuoteEmbed (e : List Char) : List Char := squote :: e ++ [squote]

/-- Unfolding lemma for `escapeShellString` on a cons. -/
theorem escapeShellString_cons (c : Char) (s : List Char) :
    escapeShellString (c :: s) =
      (if c = squote then [squote, bslash, squote, squote] else [c]) ++
        escapeShellString s :=
  List.flatMap_cons ..

/-- Entering a single-quoted section (POSIX lexer). -/
theorem pA_true_sq (l : List Char) :
    posixLexAux true (squote :: l) = posixLexAux false l := rfl

/-- An ordinary character inside single quotes (POSIX lexer). -/
theorem pA_true_ne (c : Char) (l : List Char) (h : c ≠ squote) :
    posixLexAux true (c :: l) = (posixLexAux true l).map (fun x => c :: x) := by
  simp [posixLexAux, h]

/-- A single quote outside quotes opens a quoted section (POSIX lexer). -/
theorem pA_false_sq (l : List Char) :
    posixLexAux false (squote :: l) = posixLexAux true l := by
  cases l with
  | nil => rfl
  | cons d rest => rfl

/-- A backslash outside quotes escapes the next character (POSIX lexer). -/
theorem pA_false_bs (d : Char) (l : List Char) :
    posixLexAux false (bslash :: d :: l) =
      (posixLexAux false l).map (fun x => d :: x) := rfl

/-- Round-trip of the POSIX escaping through the POSIX lexer, stated in
in-quote form for the induction. -/
theorem posix_roundtrip_aux (s : List Char) :
    posixLexAux true (escapeShellString s ++ [squote]) = some s := by
  induction s with
  | nil =>
    rw [show escapeShellString [] = [] from rfl, List.nil_append, pA_true_sq]
    rfl
  | cons c s ih =>
    rw [escapeShellString_cons]
    by_cases hc : c = squote
    · subst hc
      rw [if_pos rfl, List.append_assoc,
        show ([squote, bslash, squote, squote] : List Char) ++
            (escapeShellString s ++ [squote]) =
          squote :: bslash :: squote :: squote ::
            (escapeShellString s ++ [squote]) from rfl,
        pA_true_sq, pA_false_bs, pA_false_sq, ih]
      rfl
    · rw [if_neg hc, List.append_assoc,
        show ([c] : List Char) ++ (escapeShellString s ++ [squote]) =
          c :: (escapeShellString s ++ [squote]) from rfl,
        pA_true_ne c _ hc, ih]
      rfl

/-- Entering a single-quoted section (Fish lexer). -/
theorem fA_true_sq (l : List Char) :
    fishLexAux true (squote :: l) = fishLexAux false l := by
  cases l with
  | nil => rfl
  | cons d rest => rfl

/-- An ordinary (neither quote nor backslash) character inside single
quotes (Fish lexer). -/
theorem fA_true_ord (c : Char) (l : List Char) (h1 : c ≠ squote)
    (h2 : c ≠ bslash) :
    fishLexAux true (c :: l) = (fishLexAux true l).map (fun x => c :: x) := by
  cases l with
  | nil => simp [fishLexAux, h1, h2]
  | cons d rest => simp [fishLexAux, h1, h2]

/-- A single quote outside quotes opens a quoted section (Fish lexer). -/
theorem fA_false_sq (l : List Char) :
    fishLexAux false (squote :: l) = fishLexAux true l := by
  cases l with
  | nil => rfl
  | cons d rest => rfl

/-- A backslash outside quotes escapes the next character (Fish lexer). -/
theorem fA_false_bs (d : Char) (l : List Char) :
    fishLexAux false (bslash :: d :: l) =
      (fishLexAux false l).map (fun x => d :: x) := rfl

/-- Round-trip of the same escaping through the Fish lexer for
backslash-free payloads, in in-quote form. -/
theorem fish_roundtrip_aux (s : List Char) (hb : bslash ∉ s) :
    fishLexAux true (escapeShellString s ++ [squote]) = some s := by
  induction s with
  | nil =>
    rw [show escapeShellString [] = [] from rfl, List.nil_append, fA_true_sq]
    rfl
  | cons c s ih =>
    have hcb : c ≠ bslash := fun h => hb (h ▸ List.mem_cons_self c s)
    have hb' : bslash ∉ s := fun h => hb (List.mem_cons_of_mem c h)
    rw [escapeShellString_cons]
    by_cases hc : c = squote
    · subst hc
      rw [if_pos rfl, List.append_assoc,
        show ([squote, bslash, squote, squote] : List Char) ++
            (escapeShellString s ++ [squote]) =
          squote :: bslash :: squote :: squote ::
            (escapeShellString s ++ [squote]) from rfl,
        fA_true_sq, fA_false_bs, fA_false_sq, ih hb']
      rfl
    · rw [if_neg hc, List.append_assoc,
        show ([c] : List Char) ++ (escapeShellString s ++ [squote]) =
          c :: (escapeShellString s ++ [squote]) from rfl,
        fA_true_ord c _ hc hcb, ih hb']
      rfl

/-- A `flatMap` whose function is pointwise the singleton on the list's
members is the identity. -/
theorem flatMap_id_of_mem (f : Char → List Char) (s : List Char)
    (h : ∀ c ∈ s, f c = [c]) : s.flatMap f = s := by
  induction s with
  | nil => rfl
  | cons c s ih =>
    rw [List.flatMap_cons, h c (List.mem_cons_self c s),
      ih (fun d hd => h d (List.mem_cons_of_mem c hd)), List.singleton_append]

/-- The PowerShell escaping is the identity on strings free of
backslash, double quote, newline and carriage return. -/
theorem escapePowerShellString_id (s : List Char) (h1 : bslash ∉ s)
    (h2 : dquote ∉ s) (h3 : '\n' ∉ s) (h4 : '\r' ∉ s) :
    escapePowerShellString s = s := by
  have e1 : psEsc1 s = s := by
    apply flatMap_id_of_mem
    intro c hc
    apply if_neg
    intro hh
    exact h1 (hh ▸ hc)
  have e2 : psEsc2 s = s := by
    apply flatMap_id_of_mem
    intro c hc
    apply if_neg
    intro hh
    exact h2 (hh ▸ hc)
  have e3 : psEsc3 s = s := by
    apply flatMap_id_of_mem
    intro c hc
    apply if_neg
    intro hh
    exact h3 (hh ▸ hc)
  have e4 : psEsc4 s = s := by
    apply flatMap_id_of_mem
    intro c hc
    apply if_neg
    intro hh
    exact h4 (hh ▸ hc)
  rw [escapePowerShellString, e1, e2, e3, e4]

/-- An ordinary character in a PowerShell single-quoted body. -/
theorem psLexIn_ne (c : Char) (l : List Char) (h : c ≠ squote) :
    psLexIn (c :: l) = (psLexIn l).map (fun x => c :: x) := by
  cases l with
  | nil => simp [psLexIn, h]
  | cons d rest => simp [psLexIn, h]

/-- A PowerShell single-quoted literal over a quote-free body decodes to
that body. -/
theorem psLexIn_of_no_squote (s : List Char) (h : squote ∉ s) :
    psLexIn (s ++ [squote]) = some s := by
  induction s with
  | nil =>
    rw [List.nil_append]
    rfl
  | cons c s ih =>
    have hc : c ≠ squote := fun hh => h (hh ▸ List.mem_cons_self c s)
    rw [List.cons_append, psLexIn_ne c _ hc,
      ih (fun hh => h (List.mem_cons_of_mem c hh))]
    rfl

/-- Opening quote of a PowerShell single-quoted literal. -/
theorem psLexLiteral_sq (l : List Char) :
    psLexLiteral (squote :: l) = psLexIn l := by
  simp [psLexLiteral]

/-- Claim C2, counterexample.  The escaped registry JSON is embedded as a
PowerShell SINGLE-quoted literal (`$WORKDIRS = '...'` in every
PowerShell template of config.ts and hook-manager.ts), but PowerShell's
single-quote lexer leaves a doubled double-quote as two literal
characters.  Hence for the string `x"y` — the claim explicitly includes
strings containing the double quotes introduced by JSON serialization —
escaping followed by the target shell's own lexing yields `x""y`, not
the original string: the PowerShell round-trip of the claim fails. -/
theorem C2_counterexample :
    psLexLiteral (singleQuoteEmbed (escapePowerShellString "x\"y".data)) =
      some "x\"\"y".data ∧
    "x\"\"y".data ≠ "x\"y".data := by
  decide

/-- Claim C2, amended: the POSIX escaping round-trips through the POSIX
single-quote lexer for every string; the Fish round-trip holds for every
backslash-free string (all validated strings and their JSON snapshots on
a POSIX platform are backslash-free, but a string ending in a backslash
would defeat it, since Fish interprets backslash-quote inside single
quotes); the PowerShell escaping round-trips through the single-quoted
literal the templates actually emit only for strings containing no
double quote, backslash, single quote, newline or carriage return — in
particular not for JSON-serialized snapshots, which always contain
double quotes (see the counterexample). -/
theorem C2_amended :
    (∀ s : List Char,
      posixLexWord (singleQuoteEmbed (escapeShellString s)) = some s) ∧
    (∀ s : List Char, bslash ∉ s →
      fishLexWord (singleQuoteEmbed (escapeShellString s)) = some s) ∧
    (∀ s : List Char, dquote ∉ s → bslash ∉ s → squote ∉ s →
      '\n' ∉ s → '\r' ∉ s →
      psLexLiteral (singleQuoteEmbed (escapePowerShellString s)) = some s) := by
  refine ⟨?_, ?_, ?_⟩
  · intro s
    show posixLexAux false (squote :: (escapeShellString s ++ [squote])) = some s
    rw [pA_false_sq]
    exact posix_roundtrip_aux s
  · intro s hb
    show fishLexAux false (squote :: (escapeShellString s ++ [squote])) = some s
    rw [fA_false_sq]
    exact fish_roundtrip_aux s hb
  · intro s h1 h2 h3 h4 h5
    rw [escapePowerShellString_id s h2 h1 h4 h5]
    show psLexLiteral (squote :: (s ++ [squote])) = some s
    rw [psLexLiteral_sq]
    exact psLexIn_of_no_squote s h3

/-- Witness for `C2_amended`: the Fish and PowerShell conjuncts applied
at concrete inputs (a double-quote-bearing JSON fragment for Fish, a
plain version string for PowerShell), discharging the hypotheses by
computation. -/
theorem C2_amended_witness :
    fishLexWord (singleQuoteEmbed (escapeShellString "x\"y".data)) =
        some "x\"y".data ∧
    psLexLiteral (singleQuoteEmbed (escapePowerShellString "18.17.1".data)) =
        some "18.17.1".data :=
  ⟨C2_amended.2.1 "x\"y".data (by decide),
   C2_amended.2.2 "18.17.1".data (by decide) (by decide) (by decide)
     (by decide) (by decide)⟩

/- ---------------------------------------------------------------------
Claim C1 — directory-to-version resolution inside the generated hooks
--------------------------------------------------------------------- -/

/-- A registry entry as embedded in the generated hooks: the validated
`dir` / `version` pair of `WorkdirConfig` (config.ts). -/
structure Workdir where
  dir : List Char
  version : List Char
  deriving DecidableEq, Repr

/-- The directory-boundary-aware match used by every generated hook:
the current directory equals the entry's directory, or the entry's
directory followed by the separator is a prefix of the current
directory (`[ "$CURRENT_DIR" = "$work_dir" ] || grep -q "^$work_dir/"`,
`cwd == w_dir or cwd.startswith(w_dir + '/')`,
`$cwd -eq $workdir.dir -or $cwd.StartsWith($workdir.dir + separator)`).
The separator is modelled as `/` (`DirectorySeparatorChar` on the
claim's example paths). -/
def dirMatches (dir cwd : List Char) : Bool :=
  (cwd == dir) || ((dir ++ ['/']).isPrefixOf cwd)

/-- Resolution step of the Bash hook emitted by
`HookManager.generateReliableBashHook` (hook-manager.ts lines 152-172).
The hook extracts a single `(work_dir, work_version)` pair with
`sed 's/.*"dir":"\([^"]*\)".*/\1/'` over the embedded JSON: the leading
`.*` is greedy, so the capture is the LAST entry's field (validated
directories and versions contain no double quote, so `[^"]*` spans
exactly the stored field).  Only that last entry is then matched against
the current directory. -/
def bashHookResolve (ws : List Workdir) (cwd : List Char) : Option Workdir :=
  match ws.getLast? with
  | none => none
  | some w => if dirMatches w.dir cwd then some w else none

/-- Keep the better of the current best match and a new matching entry:
a strictly longer directory wins (`if ($workPath.Length -gt $BestLength)`;
`if len(w_dir) > best_length`). -/
def bestMatchStep (best : Option Workdir) (w : Workdir) : Option Workdir :=
  match best with
  | none => some w
  | some b => if w.dir.length > b.dir.length then some w else some b

/-- Resolution loop of the PowerShell templates
(`PowerShellConfig.getTemplates`, config.ts lines 417-433) and of the
Python resolver embedded in the Fish hook
(`HookManager.generateReliableFishHook`): iterate over all entries,
keep the matching entry with the longest directory. -/
def bestMatchResolve (ws : List Workdir) (cwd : List Char) : Option Workdir :=
  ws.foldl (fun best w => if dirMatches w.dir cwd then bestMatchStep best w else best)
    none

/-- Resolution as worded by the specification: among the entries whose
directory exactly equals the current directory or is a
directory-boundary-aware prefix of it, the one with the longest
directory string wins. -/
def specLongestPrefixResolve (ws : List Workdir) (cwd : List Char) :
    Option Workdir :=
  (ws.filter (fun w => dirMatches w.dir cwd)).foldl bestMatchStep none

/-- Folding over a filtered list equals folding with a guarded step. -/
theorem foldl_filter_guarded (p : Workdir → Bool)
    (f : Option Workdir → Workdir → Option Workdir) (ws : List Workdir)
    (init : Option Workdir) :
    (ws.filter p).foldl f init =
      ws.foldl (fun acc w => if p w then f acc w else acc) init := by
  induction ws generalizing init with
  | nil => rfl
  | cons w ws ih =>
    rw [List.filter_cons]
    by_cases hp : p w
    · rw [if_pos hp, List.foldl_cons, List.foldl_cons, if_pos hp, ih]
    · rw [if_neg hp, List.foldl_cons, if_neg hp, ih]

/-- The registry of the claim's worked example: entries for `/p`,
`/p/a` and `/p/a/b`. -/
def exampleRegistry : List Workdir :=
  [⟨"/p".data, "1".data⟩, ⟨"/p/a".data, "2".data⟩, ⟨"/p/a/b".data, "3".data⟩]

/-- Claim C1, counterexample.  The claim quantifies over every generated
hook, but the Bash hook emitted by `HookManager.generateReliableBashHook`
resolves only the single entry its greedy sed parse extracts (the last
one): with entries for `/p`, `/p/a`, `/p/a/b` and current directory
`/p/x`, the claim requires the `/p` entry, yet the Bash hook's
resolution finds no entry at all (the last entry `/p/a/b` does not match
`/p/x`), while the spec-worded longest-prefix resolution does return the
`/p` entry. -/
theorem C1_counterexample :
    bashHookResolve exampleRegistry "/p/x".data = none ∧
    specLongestPrefixResolve exampleRegistry "/p/x".data =
      some ⟨"/p".data, "1".data⟩ := by
  decide

/-- Claim C1, amended: the directory resolution of the PowerShell hook
templates (and of the Python resolver embedded in the Fish hook) selects
the entry whose directory exactly equals the current directory or is a
directory-boundary-aware prefix of it, longest directory winning, and
on the claim's examples resolves `/p/a/b/extra` to the `/p/a/b` entry,
`/p/x` to the `/p` entry and `/other` to no entry; the Bash hook of
hook-manager.ts instead considers only the last registry entry (the one
its greedy sed parse yields), so for it the claim fails (see the
counterexample). -/
theorem C1_amended :
    (∀ (ws : List Workdir) (cwd : List Char),
      bestMatchResolve ws cwd = specLongestPrefixResolve ws cwd) ∧
    bestMatchResolve exampleRegistry "/p/a/b/extra".data =
      some ⟨"/p/a/b".data, "3".data⟩ ∧
    bestMatchResolve exampleRegistry "/p/x".data = some ⟨"/p".data, "1".data⟩ ∧
    bestMatchResolve exampleRegistry "/other".data = none := by
  refine ⟨?_, by decide, by decide, by decide⟩
  intro ws cwd
  exact (foldl_filter_guarded (fun w => dirMatches w.dir cwd) bestMatchStep ws
    none).symm

/- ---------------------------------------------------------------------
Claim C6 — switch/restore control flow of a generated hook invocation
--------------------------------------------------------------------- -/

/-- Observable events of one invocation of a generated wrapper function:
the version-manager `use` calls made while switching, the `install`
calls, whether restoration was armed (POSIX `trap ... INT` / `trap ...
EXIT`; PowerShell's post-command restore block), the `use` calls made by
the restoration when it fires, and whether the wrapped real command was
executed. -/
structure HookTrace where
  switchUses : List (List Char)
  installs : List (List Char)
  restoreArmed : Bool
  restoreUses : List (List Char)
  ranWrapped : Bool
  deriving DecidableEq, Repr

/-- One invocation of the Bash `npm()` wrapper of
`generateReliableBashHook` (nvm and n variants share this control flow):
if `TARGET_VERSION` is non-empty and differs from `PREVIOUS_VERSION`,
run `use` (then `install && use` if the first `use` failed), arm the
INT/EXIT traps whose bodies re-`use` the previous version (the EXIT trap
fires when the function's execution episode ends), then run the real
command; otherwise run the real command directly.  `useOk`/`installOk`
stand for the external version manager's success or failure. -/
def runBashHook (useOk installOk : List Char → Bool) (target prev : List Char) :
    HookTrace :=
  if target ≠ [] ∧ target ≠ prev then
    { switchUses :=
        if useOk target then [target]
        else if installOk target then [target, target]
        else [target],
      installs := if useOk target then [] else [target],
      restoreArmed := true,
      restoreUses := [prev],
      ranWrapped := true }
  else
    { switchUses := [], installs := [], restoreArmed := false,
      restoreUses := [], ranWrapped := true }

/-- One invocation of the PowerShell wrapper of the
`PowerShellConfig.getTemplates` templates (config.ts lines 440-476):
same guard; on a switch, `use` (then `install`; `use` unconditionally)
and an explicit post-command restoration guarded by a non-empty previous
version; otherwise the real command runs directly with no
restoration. -/
def runPowerShellHook (useOk : List Char → Bool) (target prev : List Char) :
    HookTrace :=
  if target ≠ [] ∧ target ≠ prev then
    { switchUses := if useOk target then [target] else [target, target],
      installs := if useOk target then [] else [target],
      restoreArmed := true,
      restoreUses := if prev ≠ [] then [prev] else [],
      ranWrapped := true }
  else
    { switchUses := [], installs := [], restoreArmed := false,
      restoreUses := [], ranWrapped := true }

/-- Claim C6 (confirmed).  Whenever the resolved target version is empty
or equal to the previously active version, a generated hook invocation
performs no version-manager `use` call, no `install`, arms no
restoration (no trap or post-command restore, so no restoration `use`
ever fires), and executes the wrapped command directly — for both the
Bash trap-based hook and the PowerShell hook. -/
theorem C6_no_switch_no_restore (useOk installOk : List Char → Bool)
    (target prev : List Char) (h : target = [] ∨ target = prev) :
    runBashHook useOk installOk target prev =
      { switchUses := [], installs := [], restoreArmed := false,
        restoreUses := [], ranWrapped := true } ∧
    runPowerShellHook useOk target prev =
      { switchUses := [], installs := [], restoreArmed := false,
        restoreUses := [], ranWrapped := true } := by
  have hg : ¬ (target ≠ [] ∧ target ≠ prev) := by
    rcases h with h | h
    · exact fun hc => hc.1 h
    · exact fun hc => hc.2 h
  constructor
  · rw [runBashHook, if_neg hg]
  · rw [runPowerShellHook, if_neg hg]

/-- Witness for `C6_no_switch_no_restore` at the concrete invocation in
which the target version `18.17.1` equals the previous version. -/
theorem C6_no_switch_no_restore_witness :
    runBashHook (fun _ => true) (fun _ => true) "18.17.1".data "18.17.1".data =
      { switchUses := [], installs := [], restoreArmed := false,
        restoreUses := [], ranWrapped := true } :=
  (C6_no_switch_no_restore (fun _ => true) (fun _ => true) "18.17.1".data
    "18.17.1".data (Or.inr rfl)).1

/- ---------------------------------------------------------------------
Claim C9 — registry upsert (handleVersionSubmit in app.tsx,
handleAddCommand in cli.tsx)
--------------------------------------------------------------------- -/

/-- The add/upsert of both CLI entry points: find the first entry whose
`path.resolve`-d directory equals the (already resolved) directory being
added (`findIndex(w => path.resolve(w.dir) === validatedPath)`); if
found, overwrite its `version` in place; otherwise push a new entry at
the end. -/
def upsert (cwd : List Char) : List Workdir → List Char → List Char → List Workdir
  | [], d, v => [⟨d, v⟩]
  | w :: ws, d, v =>
    if posixResolve cwd w.dir = d then ⟨w.dir, v⟩ :: ws
    else w :: upsert cwd ws d v

/-- The resolved directory values of a registry. -/
def resolvedDirs (cwd : List Char) (ws : List Workdir) : List (List Char) :=
  ws.map (fun w => posixResolve cwd w.dir)

/-- When the directory is already present, upsert only rewrites the
version of the (unique, by no-duplicates) matching entry, in place. -/
theorem upsert_mem (cwd : List Char) (ws : List Workdir) (d v : List Char)
    (hnd : (resolvedDirs cwd ws).Nodup) (hm : d ∈ resolvedDirs cwd ws) :
    upsert cwd ws d v =
      ws.map (fun w => if posixResolve cwd w.dir = d then ⟨w.dir, v⟩ else w) := by
  induction ws with
  | nil => cases hm
  | cons w ws ih =>
    have hnd' : (resolvedDirs cwd ws).Nodup := hnd.of_cons
    have hw : posixResolve cwd w.dir ∉ resolvedDirs cwd ws :=
      (List.nodup_cons.mp hnd).1
    rw [List.map_cons]
    by_cases hc : posixResolve cwd w.dir = d
    · rw [upsert, if_pos hc, if_pos hc]
      have : ws.map (fun w => if posixResolve cwd w.dir = d then ⟨w.dir, v⟩ else w)
          = ws.map id := by
        apply List.map_congr_left
        intro a ha
        have : posixResolve cwd a.dir ≠ d := by
          intro he
          exact hw (hc ▸ he ▸ List.mem_map_of_mem (fun w => posixResolve cwd w.dir) ha)
        rw [if_neg this]
        rfl
      rw [this, List.map_id]
    · have hm' : d ∈ resolvedDirs cwd ws := by
        rcases List.mem_cons.mp hm with h | h
        · exact absurd h.symm hc
        · exact h
      rw [upsert, if_neg hc, if_neg hc, ih hnd' hm']

/-- When the directory is not present, upsert appends a fresh entry. -/
theorem upsert_not_mem (cwd : List Char) (ws : List Workdir) (d v : List Char)
    (hm : d ∉ resolvedDirs cwd ws) :
    upsert cwd ws d v = ws ++ [⟨d, v⟩] := by
  induction ws with
  | nil => rfl
  | cons w ws ih =>
    have hc : posixResolve cwd w.dir ≠ d := by
      intro he
      exact hm (he ▸ List.mem_cons_self _ _)
    have hm' : d ∉ resolvedDirs cwd ws := fun h => hm (List.mem_cons_of_mem _ h)
    rw [upsert, if_neg hc, ih hm', List.cons_append]

/-- Upsert preserves the resolved-directory values when overwriting in
place (the `dir` fields are untouched). -/
theorem resolvedDirs_upsert_mem (cwd : List Char) (ws : List Workdir)
    (d v : List Char) (hnd : (resolvedDirs cwd ws).Nodup)
    (hm : d ∈ resolvedDirs cwd ws) :
    resolvedDirs cwd (upsert cwd ws d v) = resolvedDirs cwd ws := by
  rw [upsert_mem cwd ws d v hnd hm, resolvedDirs, List.map_map]
  apply List.map_congr_left
  intro a _
  by_cases hc : posixResolve cwd a.dir = d
  · simp [Function.comp, hc]
  · simp [Function.comp, hc]

/-- Upsert of a resolved directory preserves the no-duplicate invariant
of the resolved directory values. -/
theorem upsert_nodup (cwd : List Char) (ws : List Workdir) (d v : List Char)
    (hd : posixResolve cwd d = d) (hnd : (resolvedDirs cwd ws).Nodup) :
    (resolvedDirs cwd (upsert cwd ws d v)).Nodup := by
  by_cases hm : d ∈ resolvedDirs cwd ws
  · rw [resolvedDirs_upsert_mem cwd ws d v hnd hm]
    exact hnd
  · rw [upsert_not_mem cwd ws d v hm, resolvedDirs, List.map_append]
    apply List.Nodup.append hnd
    · exact List.nodup_singleton _
    · intro x hx hy
      rw [List.map_singleton, List.mem_singleton] at hy
      subst hy
      rw [hd] at hx
      exact hm hx

/-- Claim C9 (confirmed).  Under the registry invariant that the
resolved directory values are duplicate-free, the upsert of both entry
points overwrites an existing entry's version in place — the directory
column of the registry is unchanged, so positions are preserved and
nothing is appended — or else appends exactly one new entry; and after any
sequence of add operations (each adding a resolved directory, as both
call sites do via `Security.validatePath`), the registry still contains
no two entries with the same resolved absolute directory. -/
theorem C9_upsert (cwd : List Char) (ws : List Workdir) (d v : List Char)
    (hd : posixResolve cwd d = d) (hnd : (resolvedDirs cwd ws).Nodup) :
    (d ∈ resolvedDirs cwd ws →
      upsert cwd ws d v =
        ws.map (fun w => if posixResolve cwd w.dir = d then ⟨w.dir, v⟩ else w)) ∧
    (d ∉ resolvedDirs cwd ws → upsert cwd ws d v = ws ++ [⟨d, v⟩]) ∧
    (resolvedDirs cwd (upsert cwd ws d v)).Nodup ∧
    (∀ ops : List (List Char × List Char),
      (∀ p ∈ ops, posixResolve cwd p.1 = p.1) →
      (resolvedDirs cwd
        (ops.foldl (fun acc p => upsert cwd acc p.1 p.2) ws)).Nodup) := by
  refine ⟨fun hm => upsert_mem cwd ws d v hnd hm,
    fun hm => upsert_not_mem cwd ws d v hm,
    upsert_nodup cwd ws d v hd hnd, ?_⟩
  intro ops
  induction ops generalizing ws with
  | nil => intro _; exact hnd
  | cons p ops ih =>
    intro hres
    rw [List.foldl_cons]
    exact ih (upsert cwd ws p.1 p.2)
      (upsert_nodup cwd ws p.1 p.2 (hres p (List.mem_cons_self p ops)) hnd)
      (fun q hq => hres q (List.mem_cons_of_mem p hq))

/-- Witness for `C9_upsert`: a concrete registry holding `/a`, upserting
`/b`, with the hypotheses discharged by computation. -/
theorem C9_upsert_witness :
    resolvedDirs "/".data
      (upsert "/".data [⟨"/a".data, "1".data⟩] "/b".data "2".data) =
      ["/a".data, "/b".data] := by
  have h := (C9_upsert "/".data [⟨"/a".data, "1".data⟩] "/b".data "2".data
    (by decide) (by decide)).2.1 (by decide)
  rw [h]
  decide

/- ---------------------------------------------------------------------
Claims C3 and C4 — the hook injection engine (HookManager.addHook)

The regex `HOOK_MARKER[\s\S]*?HOOK_END_MARKER\n?` with the global flag
removes, repeatedly, the leftmost-shortest span from a start marker
through the first end marker after it, plus one immediately following
newline; scanning resumes after each removed span.  `removeBlocksFuel`
implements exactly this discipline (the fuel argument only makes the
recursion structural; `removeBlocks` supplies enough fuel for any
input).
--------------------------------------------------------------------- -/

/-- The hook block start marker of hook-manager.ts. -/
def HOOK_MARKER : List Char := "# Node.js 工作目录环境切换".data

/-- The hook block end marker of hook-manager.ts. -/
def HOOK_END_MARKER : List Char := "# Node.js 工作目录环境切换 END".data

/-- One global-regex removal pass of
`content.replace(new RegExp(`...MARKER[\s\S]*?END\n?`, 'g'), '')`. -/
def removeBlocksFuel : Nat → List Char → List Char
  | 0, s => s
  | fuel + 1, s =>
    match findFirst HOOK_MARKER s with
    | none => s
    | some i =>
      match findFirst HOOK_END_MARKER (s.drop (i + HOOK_MARKER.length)) with
      | none => s
      | some k =>
        let after :=
          (s.drop (i + HOOK_MARKER.length)).drop (k + HOOK_END_MARKER.length)
        let after2 := if after.head? = some '\n' then after.tail else after
        s.take i ++ removeBlocksFuel fuel after2

/-- Marker-block removal with sufficient fuel. -/
def removeBlocks (s : List Char) : List Char := removeBlocksFuel (s.length + 1) s

/-- The newline-separator handling of `addHook` after removal: append a
newline if the remainder is non-empty and does not already end with
one. -/
def injectPad (c : List Char) : List Char :=
  if c ≠ [] ∧ c.getLast? ≠ some '\n' then c ++ ['\n'] else c

/-- The final trailing-newline handling of `addHook`. -/
def ensureTrailingNewline (c : List Char) : List Char :=
  if c.getLast? ≠ some '\n' then c ++ ['\n'] else c

/-- The content transformation of `HookManager.addHook` when a non-empty
hook was generated: remove existing blocks, pad, append the hook,
ensure a final newline, write. -/
def inject (content hook : List Char) : List Char :=
  ensureTrailingNewline (injectPad (removeBlocks content) ++ hook)

/-- The shape shared by every hook the generators return: a leading
newline, the start marker, the body (itself beginning and ending with a
newline in all templates), and the end marker. -/
def mkHookBlock (body : List Char) : List Char :=
  '\n' :: (HOOK_MARKER ++ (body ++ HOOK_END_MARKER))

/-- A non-empty pattern is not a prefix of the empty list. -/
theorem isPrefixOf_nil_false (pat : List Char) (h : pat ≠ []) :
    pat.isPrefixOf ([] : List Char) = false := by
  cases pat with
  | nil => exact absurd rfl h
  | cons c l => rfl

/-- A prefix of a list is a prefix of any right-extension of it. -/
theorem isPrefixOf_extend (pat u v : List Char)
    (h : pat.isPrefixOf u = true) : pat.isPrefixOf (u ++ v) = true := by
  rw [List.isPrefixOf_iff_prefix] at h ⊢
  exact h.trans (List.prefix_append u v)

/-- A pattern avoiding the character `d` that is a prefix of `u ++ d :: w`
is already a prefix of `u`. -/
theorem prefixOf_left_of_append (pat u : List Char) (d : Char) (w : List Char)
    (h : pat.isPrefixOf (u ++ d :: w) = true) (hd : d ∉ pat) :
    pat.isPrefixOf u = true := by
  rw [List.isPrefixOf_iff_prefix] at h ⊢
  rcases Nat.lt_or_ge u.length pat.length with hlen | hlen
  swap
  · have ht := List.prefix_iff_eq_take.mp h
    rw [List.take_append_eq_append_take, Nat.sub_eq_zero_of_le hlen,
      List.take_zero, List.append_nil] at ht
    exact ht ▸ List.take_prefix pat.length u
  · exfalso
    obtain ⟨t, ht⟩ := h
    have hd2 : (pat ++ t).drop u.length = d :: w := by
      rw [ht, List.drop_left]
    have hdp : pat.drop u.length ++ t = d :: w := by
      rw [← List.drop_append_of_le_length (Nat.le_of_lt hlen), hd2]
    have hne : pat.drop u.length ≠ [] := by
      intro hh
      rw [List.drop_eq_nil_iff] at hh
      omega
    cases hq : pat.drop u.length with
    | nil => exact hne hq
    | cons p0 pr =>
      rw [hq, List.cons_append] at hdp
      have hpd : p0 = d := by
        have := congrArg List.head? hdp
        simpa using this
      apply hd
      rw [← hpd]
      exact List.drop_subset u.length pat
        (by rw [hq]; exact List.mem_cons_self p0 pr)

/-- The contrapositive form used while scanning: if the pattern is not a
prefix of `u` and avoids `d`, it is not a prefix of `u ++ d :: w`. -/
theorem prefixOf_append_false (pat u : List Char) (d : Char) (w : List Char)
    (hu : pat.isPrefixOf u = false) (hd : d ∉ pat) :
    pat.isPrefixOf (u ++ d :: w) = false := by
  cases hq : pat.isPrefixOf (u ++ d :: w) with
  | false => rfl
  | true =>
    have := prefixOf_left_of_append pat u d w hq hd
    rw [hu] at this
    exact absurd this (by simp)

/-- Characterization of a failed search: no position matches. -/
theorem findFirst_eq_none_iff (pat : List Char) (hp : pat ≠ []) (s : List Char) :
    findFirst pat s = none ↔ ∀ i, pat.isPrefixOf (s.drop i) = false := by
  induction s with
  | nil =>
    simp [findFirst, isPrefixOf_nil_false pat hp, List.drop_nil]
  | cons c rest ih =>
    by_cases hpre : pat.isPrefixOf (c :: rest) = true
    · rw [findFirst, if_pos hpre]
      constructor
      · intro h
        exact absurd h (by simp)
      · intro hall
        have := hall 0
        rw [List.drop_zero, hpre] at this
        exact absurd this (by simp)
    · rw [findFirst, if_neg hpre]
      rw [Option.map_eq_none', ih]
      constructor
      · intro h i
        cases i with
        | zero =>
          rw [List.drop_zero]
          exact Bool.eq_false_iff.mpr hpre
        | succ i =>
          rw [List.drop_succ_cons]
          exact h i
      · intro h i
        have := h (i + 1)
        rw [List.drop_succ_cons] at this
        exact this

/-- Characterization of a successful search: the reported position
matches and every earlier position does not. -/
theorem findFirst_eq_some_spec (pat s : List Char) (k : Nat)
    (h : findFirst pat s = some k) :
    pat.isPrefixOf (s.drop k) = true ∧
      ∀ j < k, pat.isPrefixOf (s.drop j) = false := by
  induction s generalizing k with
  | nil =>
    rw [findFirst] at h
    by_cases hpre : pat.isPrefixOf ([] : List Char) = true
    · rw [if_pos hpre] at h
      cases h
      exact ⟨hpre, fun j hj => absurd hj (Nat.not_lt_zero j)⟩
    · rw [if_neg hpre] at h
      cases h
  | cons c rest ih =>
    by_cases hpre : pat.isPrefixOf (c :: rest) = true
    · rw [findFirst, if_pos hpre] at h
      cases h
      exact ⟨by simpa using hpre, fun j hj => absurd hj (Nat.not_lt_zero j)⟩
    · rw [findFirst, if_neg hpre] at h
      rcases Option.map_eq_some'.mp h with ⟨k', hk', rfl⟩
      rcases ih k' hk' with ⟨h1, h2⟩
      refine ⟨by simpa [List.drop_succ_cons] using h1, ?_⟩
      intro j hj
      cases j with
      | zero =>
        rw [List.drop_zero]
        exact Bool.eq_false_iff.mpr hpre
      | succ j =>
        rw [List.drop_succ_cons]
        exact h2 j (Nat.lt_of_succ_lt_succ hj)

/-- Converse construction: a matching position below which nothing
matches is the search result. -/
theorem findFirst_eq_some_of (pat : List Char) (s : List Char) (k : Nat)
    (h1 : pat.isPrefixOf (s.drop k) = true)
    (h2 : ∀ j < k, pat.isPrefixOf (s.drop j) = false) :
    findFirst pat s = some k := by
  induction s generalizing k with
  | nil =>
    cases k with
    | zero =>
      rw [List.drop_nil] at h1
      rw [findFirst, if_pos h1]
    | succ k =>
      have h0 := h2 0 (Nat.succ_pos k)
      rw [List.drop_nil] at h0 h1
      rw [h0] at h1
      exact absurd h1 (by simp)
  | cons c rest ih =>
    cases k with
    | zero =>
      rw [List.drop_zero] at h1
      rw [findFirst, if_pos h1]
    | succ k =>
      have h0 : pat.isPrefixOf (c :: rest) = false := by
        simpa [List.drop_zero] using h2 0 (Nat.succ_pos k)
      rw [findFirst, if_neg (by rw [h0]; simp)]
      rw [ih k (by simpa [List.drop_succ_cons] using h1)
        (fun j hj => by
          simpa [List.drop_succ_cons] using h2 (j + 1) (Nat.succ_lt_succ hj))]
      rfl

/-- Scanning past a match-free left part: the first occurrence of the
pattern in `a ++ d :: x` — with `d` a character the pattern avoids and
no occurrence inside `a` — is the first occurrence in `d :: x`,
shifted by `a.length`. -/
theorem findFirst_append_skip (pat a : List Char) (d : Char) (x : List Char)
    (hp : pat ≠ []) (ha : findFirst pat a = none) (hd : d ∉ pat) :
    findFirst pat (a ++ d :: x) =
      (findFirst pat (d :: x)).map (· + a.length) := by
  have hano := (findFirst_eq_none_iff pat hp a).mp ha
  cases hfx : findFirst pat (d :: x) with
  | none =>
    have hxno := (findFirst_eq_none_iff pat hp (d :: x)).mp hfx
    rw [Option.map_none']
    apply (findFirst_eq_none_iff pat hp _).mpr
    intro i
    rcases Nat.lt_or_ge i a.length with hi | hi
    · rw [List.drop_append_eq_append_drop, Nat.sub_eq_zero_of_le (Nat.le_of_lt hi),
        List.drop_zero]
      exact prefixOf_append_false pat (a.drop i) d x (hano i) hd
    · rw [List.drop_append_eq_append_drop, List.drop_eq_nil_of_le hi,
        List.nil_append]
      exact hxno (i - a.length)
  | some k =>
    rcases findFirst_eq_some_spec pat (d :: x) k hfx with ⟨hk, hmin⟩
    rw [Option.map_some']
    apply findFirst_eq_some_of
    · rw [List.drop_append_eq_append_drop,
        List.drop_eq_nil_of_le (Nat.le_add_left a.length k), List.nil_append,
        Nat.add_sub_cancel]
      exact hk
    · intro j hj
      rcases Nat.lt_or_ge j a.length with hji | hji
      · rw [List.drop_append_eq_append_drop,
          Nat.sub_eq_zero_of_le (Nat.le_of_lt hji), List.drop_zero]
        exact prefixOf_append_false pat (a.drop j) d x (hano j) hd
      · rw [List.drop_append_eq_append_drop, List.drop_eq_nil_of_le hji,
          List.nil_append]
        exact hmin (j - a.length) (by omega)

/-- Appending one pattern-avoided character on the right does not change
the first occurrence. -/
theorem findFirst_append_elem (pat X : List Char) (k : Nat) (d : Char)
    (hp : pat ≠ []) (hd : d ∉ pat) (h : findFirst pat X = some k) :
    findFirst pat (X ++ [d]) = some k := by
  rcases findFirst_eq_some_spec pat X k h with ⟨hk, hmin⟩
  have hkle : k ≤ X.length := by
    by_contra hgt
    rw [List.drop_eq_nil_of_le (by omega), isPrefixOf_nil_false pat hp] at hk
    exact absurd hk (by simp)
  apply findFirst_eq_some_of
  · rw [List.drop_append_eq_append_drop, Nat.sub_eq_zero_of_le hkle,
      List.drop_zero]
    exact isPrefixOf_extend pat (X.drop k) [d] hk
  · intro j hj
    rw [List.drop_append_eq_append_drop,
      Nat.sub_eq_zero_of_le (by omega), List.drop_zero]
    exact prefixOf_append_false pat (X.drop j) d [] (hmin j hj) hd

/-- The pattern itself heads its own right-extensions. -/
theorem findFirst_self_append (pat r : List Char) (hp : pat ≠ []) :
    findFirst pat (pat ++ r) = some 0 := by
  have hself : pat.isPrefixOf pat = true := by
    rw [List.isPrefixOf_iff_prefix]
  cases hpat : pat with
  | nil => exact absurd hpat hp
  | cons p0 pt =>
    rw [← hpat]
    have : pat.isPrefixOf (pat ++ r) = true := isPrefixOf_extend pat pat r hself
    cases he : pat ++ r with
    | nil =>
      exact absurd (List.append_eq_nil.mp he).1 hp
    | cons c cs =>
      rw [findFirst, if_pos (he ▸ this)]

/-- Removal is the identity on marker-free content, for any fuel. -/
theorem removeBlocksFuel_no_marker (f : Nat) (s : List Char)
    (h : findFirst HOOK_MARKER s = none) : removeBlocksFuel f s = s := by
  cases f with
  | zero => rfl
  | succ f => rw [removeBlocksFuel, h]

/-- Searching the empty string fails for non-empty patterns. -/
theorem findFirst_nil (pat : List Char) (hp : pat ≠ []) :
    findFirst pat [] = none := by
  rw [findFirst, isPrefixOf_nil_false pat hp]
  rfl

/-- The start marker heads a block preceded by its newline separator. -/
theorem findFirst_marker_block (y : List Char) :
    findFirst HOOK_MARKER ('\n' :: (HOOK_MARKER ++ y)) = some 1 := by
  have h1 : HOOK_MARKER.isPrefixOf ('\n' :: (HOOK_MARKER ++ y)) = false :=
    prefixOf_append_false HOOK_MARKER [] '\n' (HOOK_MARKER ++ y)
      (isPrefixOf_nil_false _ (by decide)) (by decide)
  rw [findFirst, if_neg (by rw [h1]; simp)]
  rw [findFirst_self_append HOOK_MARKER y (by decide)]
  rfl

/-- Removal of a well-delimited block sitting at the end of otherwise
marker-free content: the span from the start marker through the end
marker plus the following newline disappears; the newline separator
before the block survives. -/
theorem removeBlocks_strip (pre body : List Char)
    (hM : findFirst HOOK_MARKER pre = none)
    (hE : findFirst HOOK_END_MARKER (body ++ HOOK_END_MARKER) = some body.length) :
    removeBlocks
        (pre ++ '\n' :: (HOOK_MARKER ++ (body ++ (HOOK_END_MARKER ++ ['\n']))))
      = pre ++ ['\n'] := by
  have hMne : HOOK_MARKER ≠ [] := by decide
  have hstep1 : findFirst HOOK_MARKER
      (pre ++ '\n' :: (HOOK_MARKER ++ (body ++ (HOOK_END_MARKER ++ ['\n']))))
      = some (pre.length + 1) := by
    rw [findFirst_append_skip HOOK_MARKER pre '\n' _ hMne hM (by decide),
      findFirst_marker_block]
    rw [Option.map_some']
    rw [Nat.add_comm]
  have hdrop : (pre ++ '\n' :: (HOOK_MARKER ++
        (body ++ (HOOK_END_MARKER ++ ['\n'])))).drop
        (pre.length + 1 + HOOK_MARKER.length)
      = body ++ (HOOK_END_MARKER ++ ['\n']) := by
    rw [show pre ++ '\n' :: (HOOK_MARKER ++ (body ++ (HOOK_END_MARKER ++ ['\n'])))
        = (pre ++ '\n' :: HOOK_MARKER) ++ (body ++ (HOOK_END_MARKER ++ ['\n']))
      from by simp]
    rw [List.drop_left' (by simp; omega)]
  have hstep2 : findFirst HOOK_END_MARKER (body ++ (HOOK_END_MARKER ++ ['\n']))
      = some body.length := by
    rw [show body ++ (HOOK_END_MARKER ++ ['\n'])
        = (body ++ HOOK_END_MARKER) ++ ['\n'] from by simp]
    exact findFirst_append_elem _ _ _ '\n' (by decide) (by decide) hE
  have hdrop2 : (body ++ (HOOK_END_MARKER ++ ['\n'])).drop
        (body.length + HOOK_END_MARKER.length) = ['\n'] := by
    rw [show body ++ (HOOK_END_MARKER ++ ['\n'])
        = (body ++ HOOK_END_MARKER) ++ ['\n'] from by simp]
    rw [List.drop_left' (by simp)]
  have htake : (pre ++ '\n' :: (HOOK_MARKER ++
        (body ++ (HOOK_END_MARKER ++ ['\n'])))).take (pre.length + 1)
      = pre ++ ['\n'] := by
    rw [show pre ++ '\n' :: (HOOK_MARKER ++ (body ++ (HOOK_END_MARKER ++ ['\n'])))
        = (pre ++ ['\n']) ++ (HOOK_MARKER ++ (body ++ (HOOK_END_MARKER ++ ['\n'])))
      from by simp]
    rw [List.take_left' (by simp)]
  rw [removeBlocks]
  simp only [removeBlocksFuel, hstep1, hdrop, hstep2, hdrop2, htake,
    List.head?_cons, List.tail_cons]
  rw [if_pos trivial, removeBlocksFuel_no_marker _ _ (findFirst_nil _ hMne),
    List.append_nil]

/-- Padding is a no-op on content ending in a newline. -/
theorem injectPad_newline (l : List Char) :
    injectPad (l ++ ['\n']) = l ++ ['\n'] := by
  rw [injectPad, if_neg]
  intro h
  exact h.2 (List.getLast?_concat l)

/-- Every generated block ends in the final `D` of the end marker. -/
theorem mkHookBlock_getLast (b : List Char) :
    (mkHookBlock b).getLast? = some 'D' := by
  have hE : HOOK_END_MARKER.getLast? = some 'D' := by decide
  rw [show mkHookBlock b
      = (('\n' :: HOOK_MARKER) ++ b) ++ HOOK_END_MARKER from by simp [mkHookBlock]]
  rw [List.getLast?_append, hE]
  rfl

/-- The one-step effect of `inject` on marker-free content followed by a
well-delimited block: the old block and its trailing newline go, the
separator newline before it stays, one fresh block plus final newline is
appended. -/
theorem inject_over_block (pre body newBody : List Char)
    (hM : findFirst HOOK_MARKER pre = none)
    (hE : findFirst HOOK_END_MARKER (body ++ HOOK_END_MARKER) = some body.length) :
    inject (pre ++ '\n' :: (HOOK_MARKER ++ (body ++ (HOOK_END_MARKER ++ ['\n']))))
        (mkHookBlock newBody)
      = ((pre ++ ['\n']) ++ mkHookBlock newBody) ++ ['\n'] := by
  rw [inject, removeBlocks_strip pre body hM hE, injectPad_newline,
    ensureTrailingNewline, if_pos]
  rw [List.getLast?_append, mkHookBlock_getLast]
  simp

/-- Claim C3 (code bug).  `addHook` is documented and specified as
idempotent ("calling inject twice in a row with the same inputs
produces byte-identical output"), and its own comment says it avoids
redundant newlines; but the code never trims the remainder after block
removal, while every generated hook begins with its own newline.  On
re-injection the separator newline left behind by the removed block and
the new hook's leading newline accumulate: each call inserts one more
blank line before the block, so the second call's output differs from
the first's.  The conjuncts exhibit the two outputs (note `X\n` versus
`X\n\n` before the block) and their inequality. -/
theorem C3_not_idempotent :
    inject "X\n".data (mkHookBlock "\nnpm stub\n".data) =
        ("X\n".data ++ mkHookBlock "\nnpm stub\n".data) ++ ['\n'] ∧
    inject (inject "X\n".data (mkHookBlock "\nnpm stub\n".data))
        (mkHookBlock "\nnpm stub\n".data) =
      ("X\n\n".data ++ mkHookBlock "\nnpm stub\n".data) ++ ['\n'] ∧
    inject (inject "X\n".data (mkHookBlock "\nnpm stub\n".data))
        (mkHookBlock "\nnpm stub\n".data) ≠
      inject "X\n".data (mkHookBlock "\nnpm stub\n".data) := by
  decide

/-- Removal as worded by claim C4: delete exactly the span from the
start marker through the end marker, nothing else (modelled from the
claim's words for comparison with the code's `removeBlocks`; the claim
allows at most one block, so a single removal suffices). -/
def specRemoveSpan (s : List Char) : List Char :=
  match findFirst HOOK_MARKER s with
  | none => s
  | some i =>
    match findFirst HOOK_END_MARKER (s.drop (i + HOOK_MARKER.length)) with
    | none => s
    | some k =>
      s.take i ++ s.drop (i + HOOK_MARKER.length + k + HOOK_END_MARKER.length)

/-- A startup file with surrounding content on both sides of one
delimited block. -/
def midFileSample : List Char :=
  "A\n".data ++ HOOK_MARKER ++ "\nb\n".data ++ HOOK_END_MARKER ++ "\nB\n".data

/-- Claim C4, counterexample.  The removal regex ends in `\n?`, so the
code also deletes the newline immediately following the end marker — a
byte outside the claimed span.  On a file `A\n` + block + `\nB\n`, the
code's removal yields `A\nB\n` while removal of exactly the
marker-delimited span (the claim's wording) yields `A\n\nB\n`, and the
injected result embeds the code's remainder; moreover no legacy marker
pair exists anywhere in the code — only the one current pair is
recognized. -/
theorem C4_counterexample :
    removeBlocks midFileSample = "A\nB\n".data ∧
    specRemoveSpan midFileSample = "A\n\nB\n".data ∧
    ("A\nB\n".data : List Char) ≠ "A\n\nB\n".data ∧
    inject midFileSample (mkHookBlock "\nc\n".data) =
      ("A\nB\n".data ++ mkHookBlock "\nc\n".data) ++ ['\n'] := by
  decide

/-- Claim C4, amended: for an existing startup file made of marker-free
content followed by one well-delimited hook block (and the trailing
newline injection maintains), injecting a new hook removes the span
from the start marker through the end marker plus the immediately
following newline — one byte more than the claimed exact span — and
appends exactly one fresh block and a final newline, leaving every byte
of the surrounding content (including the separator newline before the
old block) unchanged, so that afterwards the file contains exactly one
hook block; only the current marker pair is recognized, there being no
legacy pair in the code. -/
theorem C4_amended (pre body newBody : List Char)
    (hM : findFirst HOOK_MARKER pre = none)
    (hE : findFirst HOOK_END_MARKER (body ++ HOOK_END_MARKER) = some body.length) :
    inject ((pre ++ mkHookBlock body) ++ ['\n']) (mkHookBlock newBody)
      = ((pre ++ ['\n']) ++ mkHookBlock newBody) ++ ['\n'] := by
  rw [show (pre ++ mkHookBlock body) ++ ['\n']
      = pre ++ '\n' :: (HOOK_MARKER ++ (body ++ (HOOK_END_MARKER ++ ['\n'])))
    from by simp [mkHookBlock]]
  exact inject_over_block pre body newBody hM hE

/-- Witness for `C4_amended` at concrete content `A`, old block body
`\nb\n` and new block body `\nc\n`. -/
theorem C4_amended_witness :
    inject (("A".data ++ mkHookBlock "\nb\n".data) ++ ['\n'])
        (mkHookBlock "\nc\n".data)
      = (("A".data ++ ['\n']) ++ mkHookBlock "\nc\n".data) ++ ['\n'] :=
  C4_amended "A".data "\nb\n".data "\nc\n".data (by decide) (by decide)

/- ---------------------------------------------------------------------
Claims C5 and C10 — hook generation dispatch and validation ordering
(HookManager.addHook, the three generators, and
BashShellConfig.getHookTemplate)

The generators' fixed template texts are long literal shell strings
whose bytes no claim below inspects; they are represented here by short
stand-in constants that keep the structure every claim does depend on —
the marker framing (`mkHookBlock`), the single-quoted embedding of the
escaped JSON (`singleQuoteEmbed`), and the order of validation,
manager dispatch and rendering.  The behaviour the omitted text
implements is modelled separately: resolution by `bashHookResolve` /
`bestMatchResolve` (claim C1) and switching/restoration by
`runBashHook` / `runPowerShellHook` (claim C6).
--------------------------------------------------------------------- -/

/-- JSON string-character escaping (`JSON.stringify`), for the
characters that can occur here. -/
def jsonEscChar (c : Char) : List Char :=
  if c = dquote then [bslash, dquote]
  else if c = bslash then [bslash, bslash]
  else if c = '\n' then [bslash, 'n']
  else if c = '\r' then [bslash, 'r']
  else if c = '\t' then [bslash, 't']
  else [c]

/-- A JSON string literal. -/
def jsonString (s : List Char) : List Char :=
  dquote :: (s.flatMap jsonEscChar ++ [dquote])

/-- `JSON.stringify` of the validated workdir list, exactly the
`dirsJson` every generator embeds. -/
def jsonStringify (ws : List Workdir) : List Char :=
  '[' :: (List.intercalate [','] (ws.map (fun w =>
    lbrace :: (jsonString "dir".data ++ ':' :: jsonString w.dir ++
      ',' :: (jsonString "version".data ++ ':' :: jsonString w.version)) ++
      [rbrace])) ++ [']'])

/-- Re-validation of a single workdir entry, as done first thing by all
three generators: `Security.validatePath` on the directory, then
`Security.validateVersion` on the version. -/
def validateWorkdir (home cwd : List Char) (w : Workdir) :
    Except VErrCode Workdir :=
  match validatePath home cwd w.dir with
  | Except.error e => Except.error e
  | Except.ok d =>
    match validateVersion w.version with
    | Except.error e => Except.error e
    | Except.ok v => Except.ok ⟨d, v⟩

/-- Left-to-right validation of the whole list (`workdirs.map(...)`
throws at the first invalid entry). -/
def validateWorkdirs (home cwd : List Char) :
    List Workdir → Except VErrCode (List Workdir)
  | [] => Except.ok []
  | w :: ws =>
    match validateWorkdir home cwd w with
    | Except.error e => Except.error e
    | Except.ok w' =>
      match validateWorkdirs home cwd ws with
      | Except.error e => Except.error e
      | Except.ok ws' => Except.ok (w' :: ws')

/-- Stand-in for the Bash template's fixed shell text around the
embedded JSON (see the section comment). -/
def bashBodyFor (mgr ej nvmPath : List Char) : List Char :=
  "\nnpm() \x7b\n  local WORKDIRS=".data ++ singleQuoteEmbed ej ++
    "\n  # fixed template text for manager ".data ++ mgr ++
    " using ".data ++ nvmPath ++ "\n\x7d\n".data

/-- Stand-in for the Fish template's fixed text. -/
def fishBodyFor (mgr ej nvmPath : List Char) : List Char :=
  "\nfunction npm\n    set WORKDIRS ".data ++ singleQuoteEmbed ej ++
    "\n    # fixed template text for manager ".data ++ mgr ++
    " using ".data ++ nvmPath ++ "\nend\n".data

/-- Stand-in for the PowerShell template's fixed text. -/
def psBodyFor (mgr ej : List Char) : List Char :=
  "\nfunction npm \x7b\n    $WORKDIRS = ".data ++ singleQuoteEmbed ej ++
    "\n    # fixed template text for manager ".data ++ mgr ++ "\n\x7d\n".data

/-- `HookManager.generateReliableBashHook`: validate all entries, embed
the escaped JSON, and return a marker-framed hook for `nvm` or `n` — or
the EMPTY string for any other manager (`return ''`), with no error. -/
def generateReliableBashHook (home cwd nvmPath manager : List Char)
    (ws : List Workdir) : Except VErrCode (List Char) :=
  match validateWorkdirs home cwd ws with
  | Except.error e => Except.error e
  | Except.ok vws =>
    let ej := escapeShellString (jsonStringify vws)
    if manager = "nvm".data then
      Except.ok (mkHookBlock (bashBodyFor "nvm".data ej nvmPath))
    else if manager = "n".data then
      Except.ok (mkHookBlock (bashBodyFor "n".data ej nvmPath))
    else Except.ok []

/-- `HookManager.generateReliableFishHook`: same shape (nvm / n / empty). -/
def generateReliableFishHook (home cwd nvmPath manager : List Char)
    (ws : List Workdir) : Except VErrCode (List Char) :=
  match validateWorkdirs home cwd ws with
  | Except.error e => Except.error e
  | Except.ok vws =>
    let ej := escapeShellString (jsonStringify vws)
    if manager = "nvm".data then
      Except.ok (mkHookBlock (fishBodyFor "nvm".data ej nvmPath))
    else if manager = "n".data then
      Except.ok (mkHookBlock (fishBodyFor "n".data ej nvmPath))
    else Except.ok []

/-- `HookManager.generatePowerShellHook`: PowerShell escaping;
nvm-windows / fnm / nvs, or the empty string. -/
def generatePowerShellHook (home cwd manager : List Char)
    (ws : List Workdir) : Except VErrCode (List Char) :=
  match validateWorkdirs home cwd ws with
  | Except.error e => Except.error e
  | Except.ok vws =>
    let ej := escapePowerShellString (jsonStringify vws)
    if manager = "nvm-windows".data then
      Except.ok (mkHookBlock (psBodyFor "nvm-windows".data ej))
    else if manager = "fnm".data then
      Except.ok (mkHookBlock (psBodyFor "fnm".data ej))
    else if manager = "nvs".data then
      Except.ok (mkHookBlock (psBodyFor "nvs".data ej))
    else Except.ok []

/-- Suffix test, `String.prototype.endsWith`. -/
def strEndsWith (suffix s : List Char) : Bool := suffix.isSuffixOf s

/-- The startup-file kind dispatch of `addHook` (in source order:
`.ps1`, `config.fish` substring, `.bat`/`.cmd`, default Bash/Zsh). -/
inductive ShellKind where
  | bash
  | fish
  | powershell
  | cmd
  deriving DecidableEq, Repr

/-- Classify a startup-file path exactly as `addHook` does. -/
def pathKind (p : List Char) : ShellKind :=
  if strEndsWith ".ps1".data p then ShellKind.powershell
  else if containsSub "config.fish".data p then ShellKind.fish
  else if strEndsWith ".bat".data p || strEndsWith ".cmd".data p then
    ShellKind.cmd
  else ShellKind.bash

/-- `HookManager.addHook` on an EXISTING startup file with the given
content: returns the raised error (if any) and the file's content after
the call.  The source reads the file and removes blocks in memory
before generating; since nothing is written until after generation,
the resulting pair is the same as computed here.  For `.bat`/`.cmd`
files the source warns and returns before generating or validating; on
a generator error the exception propagates before any write; an empty
generated hook (`if (hook)`) skips the write; otherwise the
removal/pad/append/final-newline content is written. -/
def addHookRun (home cwd nvmPath rcPath manager : List Char)
    (ws : List Workdir) (content : List Char) :
    Option VErrCode × List Char :=
  let kind := pathKind rcPath
  if kind = ShellKind.cmd then (none, content)
  else
    let gen :=
      if kind = ShellKind.powershell then
        generatePowerShellHook home cwd manager ws
      else if kind = ShellKind.fish then
        generateReliableFishHook home cwd nvmPath manager ws
      else generateReliableBashHook home cwd nvmPath manager ws
    match gen with
    | Except.error e => (some e, content)
    | Except.ok hook =>
      if hook = [] then (none, content)
      else (none, inject content hook)

/-- Error kind of `BashShellConfig.getHookTemplate`. -/
inductive HookErr where
  | unsupportedManager
  | validation (e : VErrCode)
  deriving DecidableEq, Repr

/-- The managers `BashShellConfig` declares support for. -/
def bashSupportedManagers : List (List Char) :=
  ["nvm".data, "n".data, "fnm".data]

/-- Stand-in for the rendered bash-config.ts template (fixed text, not
inspected by any claim). -/
def bashCfgRender (manager ej nvmPath : List Char) : List Char :=
  "# bash-config template for ".data ++ manager ++
    " with WORKDIRS=".data ++ singleQuoteEmbed ej ++
    " using ".data ++ nvmPath

/-- `BashShellConfig.getHookTemplate` (bash-config.ts lines 31-42):
the supported-manager guard THROWS before the workdirs are validated or
any template rendered; then validation, escaping and rendering. -/
def bashGetHookTemplate (home cwd nvmPath manager : List Char)
    (ws : List Workdir) : Except HookErr (List Char) :=
  if manager ∉ bashSupportedManagers then
    Except.error HookErr.unsupportedManager
  else
    match validateWorkdirs home cwd ws with
    | Except.error e => Except.error (HookErr.validation e)
    | Except.ok vws =>
      Except.ok (bashCfgRender manager
        (escapeShellString (jsonStringify vws)) nvmPath)

/-- Claim C5, counterexample.  For the unsupported pairing of a POSIX
(bash/zsh) startup file with the `nvm-windows` manager, the claim
requires a hard configuration error raised before rendering; but
`HookManager.addHook` raises nothing: `generateReliableBashHook`
returns the empty string for unknown managers, `if (hook)` skips the
write, and the call returns silently with the startup file unchanged. -/
theorem C5_counterexample :
    addHookRun "/home/u".data "/cwd".data "/home/u/.nvm/nvm.sh".data
        "/home/u/.zshrc".data "nvm-windows".data
        [⟨"/p".data, "18".data⟩] "X\n".data
      = (none, "X\n".data) := by
  decide

/-- Claim C5, amended: the `ShellConfig` classes do satisfy the claim —
`BashShellConfig.getHookTemplate` raises an unsupported-manager error
before validating anything or rendering any template — but the
injection path actually used, `HookManager.addHook`, instead skips an
unsupported `(startup-file kind, manager)` pairing silently: with valid
workdirs and a bash/zsh startup file, any manager other than `nvm` and
`n` yields no error and leaves the file content unchanged (no partial
or empty hook block is written). -/
theorem C5_amended :
    (∀ home cwd nvmPath manager ws, manager ∉ bashSupportedManagers →
      bashGetHookTemplate home cwd nvmPath manager ws =
        Except.error HookErr.unsupportedManager) ∧
    (∀ home cwd nvmPath rcPath manager ws content vws,
      pathKind rcPath = ShellKind.bash →
      manager ≠ "nvm".data → manager ≠ "n".data →
      validateWorkdirs home cwd ws = Except.ok vws →
      addHookRun home cwd nvmPath rcPath manager ws content =
        (none, content)) := by
  constructor
  · intro home cwd nvmPath manager ws h
    rw [bashGetHookTemplate, if_pos h]
  · intro home cwd nvmPath rcPath manager ws content vws hk h1 h2 hval
    simp [addHookRun, hk, generateReliableBashHook, hval, h1, h2]

/-- Witness for `C5_amended`: both conjuncts at the `nvm-windows`
manager, with a valid one-entry registry for the addHook part. -/
theorem C5_amended_witness :
    bashGetHookTemplate "/h".data "/c".data "/n".data "nvm-windows".data []
        = Except.error HookErr.unsupportedManager ∧
    addHookRun "/h".data "/c".data "/n".data "/home/u/.bashrc".data
        "nvm-windows".data [⟨"/p".data, "18".data⟩] "X\n".data
      = (none, "X\n".data) :=
  ⟨C5_amended.1 "/h".data "/c".data "/n".data "nvm-windows".data []
      (by decide),
   C5_amended.2 "/h".data "/c".data "/n".data "/home/u/.bashrc".data
      "nvm-windows".data [⟨"/p".data, "18".data⟩] "X\n".data
      [⟨"/p".data, "18".data⟩] (by decide) (by decide) (by decide) (by decide)⟩

/-- Claim C10, counterexample.  The claim quantifies over every
already-existing startup file, but for a `.bat`/`.cmd` file `addHook`
warns and returns before validating anything: with an entry whose
version contains an injection attempt, no error is thrown (the file is
at least left unchanged). -/
theorem C10_counterexample :
    validateVersion "18;rm".data =
        Except.error VErrCode.unsafeVersionCharacters ∧
    addHookRun "/home/u".data "/cwd".data "/home/u/.nvm/nvm.sh".data
        "setup.bat".data "nvm".data [⟨"/p".data, "18;rm".data⟩] "X\n".data
      = (none, "X\n".data) := by
  decide

/-- Claim C10, amended: for every already-existing startup file other
than a CMD batch file, `addHook` re-validates every workdir entry
(directory through `validatePath`, version through `validateVersion`)
before writing anything, and if any entry fails validation the
validation error propagates out of `addHook` with the startup file's
content unchanged — so unsafe persisted strings are never embedded into
a shell startup file; CMD batch files are skipped (with a warning)
before validation, also without modifying the file. -/
theorem C10_amended (home cwd nvmPath rcPath manager : List Char)
    (ws : List Workdir) (content : List Char) (e : VErrCode)
    (hcmd : pathKind rcPath ≠ ShellKind.cmd)
    (hval : validateWorkdirs home cwd ws = Except.error e) :
    addHookRun home cwd nvmPath rcPath manager ws content =
      (some e, content) := by
  cases hk : pathKind rcPath with
  | cmd => exact absurd hk hcmd
  | bash => simp [addHookRun, hk, generateReliableBashHook, hval]
  | fish => simp [addHookRun, hk, generateReliableFishHook, hval]
  | powershell => simp [addHookRun, hk, generatePowerShellHook, hval]

/-- Witness for `C10_amended`: a zsh startup file and a registry entry
with an invalid version format. -/
theorem C10_amended_witness :
    addHookRun "/h".data "/c".data "/n".data "/home/u/.zshrc".data
        "nvm".data [⟨"/p".data, "abc".data⟩] "X\n".data
      = (some VErrCode.invalidVersionFormat, "X\n".data) :=
  C10_amended "/h".data "/c".data "/n".data "/home/u/.zshrc".data
    "nvm".data [⟨"/p".data, "abc".data⟩] "X\n".data
    VErrCode.invalidVersionFormat (by decide) (by decide)
